import Mathlib

/- Shallow embedding of utils/in-sanity/main.py, a cross-reference sanity
   checker for game data.  The file models the search_cobj scanner regex,
   the lineNumber helper, the primary scan loop of sanitizer.dah_doctor,
   and the secondary unused-name pass.  The readers package (fleet, ship,
   outfit, unidiff) is not part of the sources; its find / get_unused /
   set_unknown contract is modelled from the spec, section 4.1. -/

set_option autoImplicit false
set_option maxRecDepth 8192

namespace InSanity

/-- The double quote character, written via its code point. -/
def dquote : Char := Char.ofNat 34

/-- One reference site produced by the scanner: absolute match offset,
    matched call keyword (including the trailing parenthesis, as captured by
    the func group of rawstr), and the quoted argument text. -/
structure Site where
  start : Nat
  func : List Char
  content : List Char
deriving DecidableEq, Repr

def kwPilotAdd : List Char := "pilot.add(".toList
def kwPlayerAddShip : List Char := "player.addShip(".toList
def kwAddOutfit : List Char := "addOutfit(".toList
def kwDiffApply : List Char := "diff.apply(".toList

/-- The four alternatives of the func group of rawstr, in source order
    (main.py lines 113-119). -/
def keywords : List (List Char) := [kwPilotAdd, kwPlayerAddShip, kwAddOutfit, kwDiffApply]

/-- Split a character list at the first double quote: the first component is
    the maximal quote-free front (what the greedy content group matches),
    the second is the remainder beginning at that quote. -/
def splitAtQuote : List Char → List Char × List Char
  | [] => ([], [])
  | c :: l =>
    if c = dquote then ([], c :: l)
    else
      let p := splitAtQuote l
      (c :: p.1, p.2)

/-- One match attempt of search_cobj at the head of l: a keyword alternative,
    then a literal double quote, then a nonempty run of non-quote characters.
    Returns the keyword, the captured content and the suffix after the match
    (the pattern has no closing quote, so the match ends with the content). -/
def tryMatch (l : List Char) : Option (List Char × List Char × List Char) :=
  match keywords.find? (fun kw => kw.isPrefixOf l) with
  | none => none
  | some kw =>
    match l.drop kw.length with
    | [] => none
    | c :: r =>
      if c = dquote then
        let p := splitAtQuote r
        if p.1 = [] then none else some (kw, p.1, p.2)
      else none

/-- finditer of search_cobj: leftmost matches, scanning resumes after each
    match end; the fuel argument bounds the number of steps and is
    instantiated with the text length. -/
def scanAux : Nat → List Char → Nat → List Site
  | 0, _, _ => []
  | _ + 1, [], _ => []
  | fuel + 1, c :: l, pos =>
    match tryMatch (c :: l) with
    | some (kw, content, rest) =>
      ⟨pos, kw, content⟩ :: scanAux fuel rest (pos + kw.length + 1 + content.length)
    | none => scanAux fuel l (pos + 1)

/-- All matches of search_cobj over a text, with absolute offsets. -/
def scan (l : List Char) : List Site := scanAux l.length l 0

/-- Python str.count of the newline character over l[0:start],
    as used by lineNumber (main.py line 23). -/
def countNL (l : List Char) (start : Nat) : Nat := (l.take start).count '\n'

/-- Python str.rfind of the newline character over l[0:start]: the largest
    index below start holding a newline, and -1 when there is none
    (main.py line 24). -/
def pyRfindNL (l : List Char) (start : Nat) : Int :=
  (List.range start).foldl
    (fun acc i => if l.get? i = some '\n' then (i : Int) else acc) (-1)

/-- lineNumber from main.py lines 19-25: 1-based line and the offset
    start - rfind. -/
def lineNumber (l : List Char) (start : Nat) : Nat × Int :=
  (countNL l start + 1, (start : Int) - pyRfindNL l start)

/-! Diagnostics -/

/-- The backtick character. -/
def btick : Char := Char.ofNat 96

/-- The apostrophe character. -/
def apos : Char := Char.ofNat 39

/-- The info dict built for one match (main.py lines 144-149): line, offset,
    the matched keyword with its trailing parenthesis removed, the content. -/
structure Info where
  lineno : Nat
  offset : Int
  func : List Char
  content : List Char
deriving DecidableEq, Repr

/-- sanitizer._errorstring (main.py lines 29-30) instantiated with an info
    dict: the argument is wrapped in two backticks on the left and two
    apostrophes on the right. -/
def errorstring (info : Info) : String :=
  "Can not found element " ++ String.mk [btick, btick] ++ String.mk info.content
    ++ String.mk [apos, apos] ++ " for function " ++ String.mk info.func
    ++ " at line " ++ toString info.lineno ++ " offset " ++ toString info.offset

/-! Registries.  The readers package is not under the sources; only its call
    sites in main.py are.  The entity registries are therefore modelled from
    the spec. -/

/-- Modelled from the spec: an AssetRegistry (spec section 4.1); the readers
    package defining fleet, ship, outfit and unidiff is missing from the
    sources.  Entities are (name, usageCount) pairs, usage starts at 0. -/
structure Registry where
  entries : List (List Char × Nat)
deriving DecidableEq, Repr

/-- Modelled from the spec: find(name) is true iff name is a known entity and
    as a side effect increments that entity's usageCount; unknown names
    return false with no side effect. -/
def Registry.find (r : Registry) (name : List Char) : Bool × Registry :=
  if r.entries.any (fun e => e.1 = name) then
    (true, ⟨r.entries.map (fun e => if e.1 = name then (e.1, e.2 + 1) else e)⟩)
  else (false, r)

/-- Modelled from the spec: get_unused() returns the names whose usageCount
    is zero. -/
def Registry.get_unused (r : Registry) : List (List Char) :=
  (r.entries.filter (fun e => e.2 = 0)).map (fun e => e.1)

/-- Modelled from the spec: set_unknown(name) forces the usageCount of name
    to a nonzero value, and is a no-op if name is not a known entity. -/
def Registry.set_unknown (r : Registry) (name : List Char) : Registry :=
  ⟨r.entries.map (fun e => if e.1 = name then (e.1, e.2 + 1) else e)⟩

/-- The names a registry knows. -/
def Registry.names (r : Registry) : List (List Char) := r.entries.map (fun e => e.1)

/-- The four registry objects constructed by dah_doctor (main.py 104-112). -/
structure Registries where
  fleetdata : Registry
  shipdata : Registry
  outfitdata : Registry
  udata : Registry
deriving DecidableEq, Repr

/-! The per-site check of the primary loop -/

def lPilotAdd : List Char := "pilot.add".toList
def lAddOutfit : List Char := "addOutfit".toList
def lPlayerAddShip : List Char := "player.addShip".toList
def lDiffApply : List Char := "diff.apply".toList

/-- Checking one reference site (main.py lines 151-166).  The source uses a
    flag named this, reset to False before the loop and again right after
    each append, so at the start of every iteration the flag is False and the
    body is a function of the single site; the four dispatch tests are kept
    in source order. -/
def siteStep (regs : Registries) (info : Info) : Registries × Option String :=
  let this0 := false
  let s1 :=
    if info.func = lPilotAdd then
      let p := regs.fleetdata.find info.content
      ({ regs with fleetdata := p.2 }, this0 || !p.1)
    else (regs, this0)
  let s2 :=
    if info.func = lAddOutfit then
      let p := s1.1.outfitdata.find info.content
      ({ s1.1 with outfitdata := p.2 }, s1.2 || !p.1)
    else s1
  let s3 :=
    if info.func = lPlayerAddShip then
      let p := s2.1.shipdata.find info.content
      ({ s2.1 with shipdata := p.2 }, s2.2 || !p.1)
    else s2
  let s4 :=
    if info.func = lDiffApply then
      let p := s3.1.udata.find info.content
      ({ s3.1 with udata := p.2 }, s3.2 || !p.1)
    else s3
  (s4.1, if s4.2 then some (errorstring info) else none)

/-- The info dict for a site of a given text. -/
def mkInfo (text : List Char) (s : Site) : Info :=
  let p := lineNumber text s.start
  ⟨p.1, p.2, s.func.dropLast, s.content⟩

/-- Folding siteStep over the sites of one file, accumulating the appended
    error strings in order. -/
def processSites (regs : Registries) (infos : List Info) : Registries × List String :=
  infos.foldl
    (fun acc info =>
      let p := siteStep acc.1 info
      (p.1, acc.2 ++ p.2.toList))
    (regs, [])

/-- Scanning one file text: all sites of the scanner, checked in order. -/
def processText (regs : Registries) (text : List Char) : Registries × List String :=
  processSites regs ((scan text).map (mkInfo text))

/-! The primary scan loop -/

/-- The mutable state of the loop in dah_doctor: registries, the line cache
    of file texts, the pending errors list, and what has been printed to the
    error channel so far. -/
structure ScanState where
  regs : Registries
  cache : List (String × List Char)
  errors : List String
  stderrOut : List String
deriving DecidableEq, Repr

/-- The outcome of reading one script file: the text, an I/O error, or any
    other exception raised while handling the file. -/
inductive FileOutcome where
  | ok (text : List Char)
  | ioError (msg : String)
  | otherError (msg : String)
deriving DecidableEq, Repr

/-- Lines 134-137: print every pending error to the error channel, then
    reset the pending list. -/
def flushErrors (st : ScanState) : ScanState :=
  { st with stderrOut := st.stderrOut ++ st.errors, errors := [] }

/-- One iteration of the primary loop (main.py lines 131-171): flush the
    previous file's pending errors first; then read the file, cache its text
    and check its sites; an IOError prints a warning and skips the file; any
    other exception is re-raised. -/
def processFile (st : ScanState) (fname : String) (fo : FileOutcome) :
    Except String ScanState :=
  let st := flushErrors st
  match fo with
  | .ok text =>
    let p := processText st.regs text
    .ok { st with
            regs := p.1
            cache := st.cache ++ [(fname, text)]
            errors := p.2 }
  | .ioError msg =>
    .ok { st with stderrOut := st.stderrOut ++ ["I/O error: " ++ msg] }
  | .otherError msg => .error msg

/-- The primary loop over the script file list. -/
def primaryScan (st : ScanState) : List (String × FileOutcome) → Except String ScanState
  | [] => .ok st
  | (n, fo) :: rest =>
    match processFile st n fo with
    | .ok st' => primaryScan st' rest
    | .error e => .error e

/-- The one-file-lag bookkeeping: given the pending diagnostics carried into
    the loop and the diagnostics produced per file, returns what gets printed
    by the in-loop flushes and what is still pending when the loop ends. -/
def lagFlow (pending : List String) : List (List String) → List String × List String
  | [] => ([], pending)
  | d :: ds =>
    let p := lagFlow d ds
    (pending ++ p.1, p.2)

/-- The per-file diagnostic lists of a run over the given texts, threading
    the registries through. -/
def runDiags (regs : Registries) : List (List Char) → List (List String)
  | [] => []
  | t :: ts => (processText regs t).2 :: runDiags (processText regs t).1 ts

/-- The registries after scanning the given texts in order. -/
def runRegs (regs : Registries) : List (List Char) → Registries
  | [] => regs
  | t :: ts => runRegs (processText regs t).1 ts

/-! The secondary pass -/

/-- A token of a compiled secondary-pass alternative: a literal character, or
    the flexible whitespace token that a space is replaced with. -/
inductive Tok where
  | lit (c : Char)
  | ws
deriving DecidableEq, Repr

/-- The compiled form of one unused name inside the VERBOSE alternation:
    a space was replaced by the whitespace token; any other whitespace
    character survives into the pattern text where the VERBOSE flag discards
    it; every other character matches literally.  (Names holding regex
    metacharacters are outside this model; the source would hand them to the
    regex engine unescaped.) -/
def nameToTokens (name : List Char) : List Tok :=
  name.foldr
    (fun c acc =>
      if c = ' ' then .ws :: acc
      else if c.isWhitespace then acc
      else .lit c :: acc)
    []

/-- Matching a token list against the head of a text: returns the matched
    characters and the remaining suffix.  A literal must be equal, character
    case included; the whitespace token matches one whitespace character. -/
def matchToks : List Tok → List Char → Option (List Char × List Char)
  | [], l => some ([], l)
  | _ :: _, [] => none
  | .lit c :: ts, x :: l =>
    if x = c then (matchToks ts l).map (fun p => (x :: p.1, p.2)) else none
  | .ws :: ts, x :: l =>
    if x.isWhitespace then (matchToks ts l).map (fun p => (x :: p.1, p.2)) else none

/-- finditer of a compiled alternation: at each position the alternatives are
    tried in order, the first success is yielded and scanning resumes after
    the match; fuel is instantiated with the text length. -/
def finditerAux (alts : List (List Tok)) : Nat → List Char → List (List Char)
  | 0, _ => []
  | _ + 1, [] => []
  | fuel + 1, c :: l =>
    match alts.findSome? (fun a => matchToks a (c :: l)) with
    | some p =>
      if p.1 = [] then p.1 :: finditerAux alts fuel l
      else p.1 :: finditerAux alts fuel p.2
    | none => finditerAux alts fuel l

/-- All matches of a compiled alternation over a text. -/
def finditer (alts : List (List Tok)) (l : List Char) : List (List Char) :=
  finditerAux alts l.length l

/-- Python replace of a space by a backslash-s pair, applied to a name
    before it is appended to the pattern string (main.py line 197). -/
def nameRepl (name : List Char) : List Char :=
  name.foldr (fun c acc => if c = ' ' then '\\' :: 's' :: acc else c :: acc) []

/-- The rname accumulator of main.py lines 194-198: every name of the data,
    space-replaced, followed by a bar. -/
def buildRName (data : List (List Char)) : List Char :=
  data.foldl (fun acc n => acc ++ nameRepl n ++ ['|']) []

/-- The alternation body spliced into the pattern: rname without its last
    character (main.py line 201). -/
def patternBody (data : List (List Char)) : List Char := (buildRName data).dropLast

/-- The uniqList accumulator of main.py lines 195-200.  It deduplicates the
    space-replaced names, and the source never reads it afterwards. -/
def uniqListOf (data : List (List Char)) : List (List Char) :=
  data.foldl
    (fun acc n =>
      let n' := nameRepl n
      if n' ∈ acc then acc else acc ++ [n'])
    []

/-- The compiled alternatives of one category's secondary matcher, in the
    order the names were appended into rname, duplicates included. -/
def buildAlts (data : List (List Char)) : List (List Tok) := data.map nameToTokens

/-- The tocheck tuple of main.py lines 180-181, as (key, registry) pairs in
    source order. -/
def tocheck (regs : Registries) : List (String × Registry) :=
  [("fleet", regs.fleetdata), ("unidiff", regs.udata),
   ("ship", regs.shipdata), ("outfit", regs.outfitdata)]

/-- The unused_data dict of main.py lines 182-185: only categories whose
    get_unused result is nonempty are recorded. -/
def unusedData (regs : Registries) : List (String × List (List Char)) :=
  (tocheck regs).foldl
    (fun acc p =>
      let tmp := p.2.get_unused
      if tmp.length > 0 then acc ++ [(p.1, tmp)] else acc)
    []

/-- The mcobj dict of main.py lines 188-202: one compiled matcher per
    category with a nonempty unused set. -/
def mcobj (regs : Registries) : List (String × List (List Tok)) :=
  (unusedData regs).map (fun p => (p.1, buildAlts p.2))

/-- Lines 208-210: set_unknown on the registry whose tocheck key equals the
    category; a key matching no registry does nothing. -/
def setUnknownCat (regs : Registries) (cat : String) (name : List Char) : Registries :=
  if cat = "fleet" then { regs with fleetdata := regs.fleetdata.set_unknown name }
  else if cat = "unidiff" then { regs with udata := regs.udata.set_unknown name }
  else if cat = "ship" then { regs with shipdata := regs.shipdata.set_unknown name }
  else if cat = "outfit" then { regs with outfitdata := regs.outfitdata.set_unknown name }
  else regs

/-- The registry a category key designates (keys other than the four of
    tocheck do not occur). -/
def getCatReg (regs : Registries) (cat : String) : Registry :=
  if cat = "fleet" then regs.fleetdata
  else if cat = "unidiff" then regs.udata
  else if cat = "ship" then regs.shipdata
  else regs.outfitdata

/-- The innermost loop of the secondary pass: set_unknown on every matched
    text of one category over one file content. -/
def applyMatches (regs : Registries) (cat : String) (ms : List (List Char)) : Registries :=
  ms.foldl (fun r m => setUnknownCat r cat m) regs

/-- The category loop of the secondary pass over one cached file content. -/
def applyFile (regs : Registries) (m : List (String × List (List Tok)))
    (content : List Char) : Registries :=
  m.foldl (fun r p => applyMatches r p.1 (finditer p.2 content)) regs

/-- The secondary pass of main.py lines 188-210: the matchers are compiled
    once from the unused sets, then every cached file text is re-scanned and
    every match is handed to set_unknown of the owning registry. -/
def secondaryScan (regs : Registries) (cache : List (String × List Char)) : Registries :=
  let m := mcobj regs
  cache.foldl (fun r p => applyFile r m p.2) regs

/-- The whole of dah_doctor after registry construction: the primary loop
    over the files, then the secondary pass over the cached texts.  The
    pending errors of the last file are carried, unprinted, into the final
    state: no statement after the loop writes to the error channel. -/
def dahDoctor (regs : Registries) (files : List (String × FileOutcome)) :
    Except String ScanState :=
  match primaryScan ⟨regs, [], [], []⟩ files with
  | .error e => .error e
  | .ok st => .ok { st with regs := secondaryScan st.regs st.cache }

/-- The pending errors of a finished run. -/
def resultErrors : Except String ScanState → List String
  | .ok st => st.errors
  | .error _ => []

/-- The error-channel output of a finished run. -/
def resultStderr : Except String ScanState → List String
  | .ok st => st.stderrOut
  | .error _ => []

/-- The cached texts of a finished run. -/
def resultCache : Except String ScanState → List (String × List Char)
  | .ok st => st.cache
  | .error _ => []

/-! Definitions following the words of the spec, used to compare claims
    against the source behavior. -/

/-- Modelled from the spec: the claimed exact diagnostic content, with the
    argument wrapped in single straight quotes on both sides. -/
def claimedErrorString (info : Info) : String :=
  "Can not found element " ++ String.mk [apos] ++ String.mk info.content
    ++ String.mk [apos] ++ " for function " ++ String.mk info.func
    ++ " at line " ++ toString info.lineno ++ " offset " ++ toString info.offset

/-- The index of the nearest newline strictly before start, if any. -/
def lastNLBefore (l : List Char) (start : Nat) : Option Nat :=
  ((List.range start).filter (fun i => l.get? i == some '\n')).getLast?

/-- Modelled from the spec: the claimed column, the distance from the nearest
    preceding newline, or from the start of the text when none precedes. -/
def claimedOffset (l : List Char) (start : Nat) : Int :=
  match lastNLBefore l start with
  | some p => (start : Int) - p
  | none => (start : Int)

/-- Does a token list match somewhere with nothing left over constraints?
    flexMatchAt name suffix: name matches at the head of suffix with each
    internal space standing for one whitespace character. -/
def flexMatchAt : List Char → List Char → Bool
  | [], _ => true
  | _ :: _, [] => false
  | c :: n, x :: t =>
    (if c = ' ' then x.isWhitespace else x = c) && flexMatchAt n t

/-- Modelled from the spec: name occurs literally in the text, with each
    internal space allowed to match one flexible whitespace character. -/
def occursFlex (name text : List Char) : Bool :=
  (List.range (text.length + 1)).any (fun i => flexMatchAt name (text.drop i))

/-! ### Scanner lemmas -/

theorem splitAtQuote_append (l : List Char) :
    (splitAtQuote l).1 ++ (splitAtQuote l).2 = l := by
  induction l with
  | nil => rfl
  | cons c t ih =>
    simp only [splitAtQuote]
    split
    · rfl
    · simpa using ih

theorem splitAtQuote_fst_no_dq (l : List Char) : dquote ∉ (splitAtQuote l).1 := by
  induction l with
  | nil => simp [splitAtQuote]
  | cons c t ih =>
    simp only [splitAtQuote]
    split
    · simp
    · next hc =>
      simp only [List.mem_cons, not_or]
      exact ⟨fun h => hc h.symm, ih⟩

theorem splitAtQuote_snd (l : List Char) :
    (splitAtQuote l).2 = [] ∨ (splitAtQuote l).2.head? = some dquote := by
  induction l with
  | nil => left; rfl
  | cons c t ih =>
    simp only [splitAtQuote]
    split
    · next hc => right; simp [hc]
    · exact ih

theorem tryMatch_nil : tryMatch [] = none := by decide

theorem tryMatch_some {l kw content rest : List Char}
    (h : tryMatch l = some (kw, content, rest)) :
    kw ∈ keywords ∧ content ≠ [] ∧ dquote ∉ content ∧
      l = kw ++ dquote :: (content ++ rest) ∧
      (rest = [] ∨ rest.head? = some dquote) := by
  cases hf : keywords.find? (fun k => k.isPrefixOf l) with
  | none => simp only [tryMatch, hf] at h; exact absurd h (by simp)
  | some kw' =>
    simp only [tryMatch, hf] at h
    have hmem : kw' ∈ keywords := List.mem_of_find?_eq_some hf
    have hpre : kw' <+: l := by
      have := List.find?_some hf
      simpa [ List.isPrefixOf_iff_prefix] using this
    obtain ⟨t, ht⟩ := hpre
    have hdrop : l.drop kw'.length = t := by
      rw [← ht]; exact List.drop_left kw' t
    rw [hdrop] at h
    cases t with
    | nil => simp at h
    | cons c r =>
      simp only at h
      by_cases hc : c = dquote
      · rw [if_pos hc] at h
        by_cases hnil : (splitAtQuote r).1 = []
        · rw [if_pos hnil] at h; exact absurd h (by simp)
        · rw [if_neg hnil] at h
          simp only [Option.some.injEq, Prod.mk.injEq] at h
          obtain ⟨hk, hcnt, hrest⟩ := h
          subst hk
          subst hcnt
          subst hrest
          refine ⟨hmem, hnil, splitAtQuote_fst_no_dq r, ?_, splitAtQuote_snd r⟩
          rw [← ht, hc, splitAtQuote_append r]
      · rw [if_neg hc] at h; exact absurd h (by simp)

theorem tryMatch_rest_length {l kw content rest : List Char}
    (h : tryMatch l = some (kw, content, rest)) : rest.length < l.length := by
  obtain ⟨_, _, _, hl, _⟩ := tryMatch_some h
  subst hl
  simp [List.length_append]
  omega

/-- The shape of every site the scanner yields: a keyword of the four, a
    double quote, then the nonempty quote-free content, and the text resumes
    (if at all) at a double quote. -/
def siteShape (l : List Char) (s : Site) : Prop :=
  s.func ∈ keywords ∧ s.content ≠ [] ∧ dquote ∉ s.content ∧
    (s.func ++ dquote :: s.content) <+: l.drop s.start ∧
    (l.drop (s.start + s.func.length + 1 + s.content.length) = [] ∨
     (l.drop (s.start + s.func.length + 1 + s.content.length)).head? = some dquote)

theorem scanAux_sound :
    ∀ (fuel : Nat) (suffix : List Char) (pos : Nat) (l : List Char),
      suffix = l.drop pos → ∀ s ∈ scanAux fuel suffix pos, siteShape l s := by
  intro fuel
  induction fuel with
  | zero => intro suffix pos l _ s hs; simp [scanAux] at hs
  | succ n ih =>
    intro suffix pos l hsuf s hs
    cases suffix with
    | nil => simp [scanAux] at hs
    | cons c t =>
      rw [scanAux] at hs
      cases htm : tryMatch (c :: t) with
      | none =>
        rw [htm] at hs
        refine ih t (pos + 1) l ?_ s hs
        have : t = (l.drop pos).drop 1 := by rw [← hsuf]; rfl
        rw [this, List.drop_drop]
      | some trip =>
        obtain ⟨kw, content, rest⟩ := trip
        rw [htm] at hs
        obtain ⟨hmem, hne, hnq, hsplit, hterm⟩ := tryMatch_some htm
        have hdp : l.drop pos = (kw ++ dquote :: content) ++ rest := by
          rw [← hsuf, hsplit]; simp
        have hlen : (kw ++ dquote :: content).length = kw.length + 1 + content.length := by
          simp [List.length_append]; omega
        have hrest : rest = l.drop (pos + (kw.length + 1 + content.length)) := by
          rw [← List.drop_drop, hdp, ← hlen, List.drop_left]
        rcases List.mem_cons.mp hs with hhead | htail
        · subst hhead
          refine ⟨hmem, hne, hnq, ⟨rest, hdp.symm⟩, ?_⟩
          have harith : pos + kw.length + 1 + content.length
              = pos + (kw.length + 1 + content.length) := by omega
          rw [show (⟨pos, kw, content⟩ : Site).start + (⟨pos, kw, content⟩ : Site).func.length
                + 1 + (⟨pos, kw, content⟩ : Site).content.length
              = pos + (kw.length + 1 + content.length) from by simp; omega]
          rw [← hrest]
          cases hterm with
          | inl h => left; exact h
          | inr h => right; exact h
        · exact ih rest (pos + kw.length + 1 + content.length) l
            (by rw [hrest]; congr 1; omega) s htail

theorem scan_sound (l : List Char) : ∀ s ∈ scan l, siteShape l s :=
  scanAux_sound l.length l 0 l (by simp)

theorem scanAux_eq_nil_no_match :
    ∀ (fuel : Nat) (l : List Char) (pos : Nat), l.length ≤ fuel →
      scanAux fuel l pos = [] → ∀ i, tryMatch (l.drop i) = none := by
  intro fuel
  induction fuel with
  | zero =>
    intro l pos hlen _ i
    have hl : l = [] := List.length_eq_zero.mp (Nat.le_zero.mp hlen)
    subst hl
    rw [List.drop_nil]
    exact tryMatch_nil
  | succ n ih =>
    intro l pos hlen h i
    cases l with
    | nil => rw [List.drop_nil]; exact tryMatch_nil
    | cons c t =>
      rw [scanAux] at h
      cases htm : tryMatch (c :: t) with
      | some trip => rw [htm] at h; exact absurd h (by simp)
      | none =>
        rw [htm] at h
        cases i with
        | zero => exact htm
        | succ j =>
          rw [List.drop_succ_cons]
          exact ih t (pos + 1) (by simpa using Nat.le_of_succ_le_succ hlen) h j

theorem prefix_total {α : Type} {l₁ l₂ l₃ : List α}
    (h1 : l₁ <+: l₃) (h2 : l₂ <+: l₃) : l₁ <+: l₂ ∨ l₂ <+: l₁ := by
  rcases Nat.le_total l₁.length l₂.length with h | h
  · left
    rw [List.prefix_iff_eq_take.mp h1, List.prefix_iff_eq_take.mp h2]
    exact List.take_prefix_take_left l₃ h
  · right
    rw [List.prefix_iff_eq_take.mp h1, List.prefix_iff_eq_take.mp h2]
    exact List.take_prefix_take_left l₃ h

theorem keywords_prefix_closed :
    ∀ k₁ ∈ keywords, ∀ k₂ ∈ keywords, k₁ <+: k₂ → k₁ = k₂ := by
  have : ∀ k₁ ∈ keywords, ∀ k₂ ∈ keywords, k₁.isPrefixOf k₂ = true → k₁ = k₂ := by decide
  intro k₁ h₁ k₂ h₂ hp
  exact this k₁ h₁ k₂ h₂ ( List.isPrefixOf_iff_prefix.mpr hp)

theorem tryMatch_isSome_of_occur {l kw : List Char} {ch : Char}
    (hkw : kw ∈ keywords) (hch : ch ≠ dquote)
    (hpre : (kw ++ [dquote, ch]) <+: l) : tryMatch l ≠ none := by
  have hkpre : kw <+: l := (kw.prefix_append [dquote, ch]).trans hpre
  have hsome : (keywords.find? (fun k => k.isPrefixOf l)).isSome := by
    rw [List.find?_isSome]
    exact ⟨kw, hkw, by simpa [ List.isPrefixOf_iff_prefix] using hkpre⟩
  obtain ⟨kw', hf⟩ := Option.isSome_iff_exists.mp hsome
  have hmem' : kw' ∈ keywords := List.mem_of_find?_eq_some hf
  have hpre' : kw' <+: l := by
    have := List.find?_some hf
    simpa [ List.isPrefixOf_iff_prefix] using this
  have heq : kw' = kw := by
    rcases prefix_total hpre' hkpre with h | h
    · exact keywords_prefix_closed kw' hmem' kw hkw h
    · exact (keywords_prefix_closed kw hkw kw' hmem' h).symm
  subst heq
  obtain ⟨t, ht⟩ := hpre
  have hdrop : l.drop kw'.length = dquote :: ch :: t := by
    rw [← ht, List.append_assoc]
    exact List.drop_left kw' ([dquote, ch] ++ t)
  have hne : (splitAtQuote (ch :: t)).1 ≠ [] := by
    simp only [splitAtQuote]
    rw [if_neg hch]
    simp
  simp only [tryMatch, hf, hdrop, if_pos rfl, if_neg hne]
  simp

theorem scan_ne_nil_of_occur {l kw : List Char} {ch : Char} {i : Nat}
    (hkw : kw ∈ keywords) (hch : ch ≠ dquote)
    (hpre : (kw ++ [dquote, ch]) <+: l.drop i) : scan l ≠ [] := by
  intro hnil
  exact tryMatch_isSome_of_occur hkw hch hpre
    (scanAux_eq_nil_no_match l.length l 0 (Nat.le_refl _) hnil i)

/-! ### lineNumber lemmas -/

theorem pyRfindNL_succ (l : List Char) (n : Nat) :
    pyRfindNL l (n + 1)
      = if l.get? n = some '\n' then (n : Int) else pyRfindNL l n := by
  unfold pyRfindNL
  rw [List.range_succ, List.foldl_append]
  simp

theorem lastNLBefore_succ (l : List Char) (n : Nat) :
    lastNLBefore l (n + 1)
      = if l.get? n = some '\n' then some n else lastNLBefore l n := by
  unfold lastNLBefore
  rw [List.range_succ, List.filter_append]
  by_cases h : l.get? n = some '\n'
  · have h' : l[n]? = some '\n' := by rw [← List.get?_eq_getElem?]; exact h
    have hf : List.filter (fun i => l.get? i == some '\n') [n] = [n] := by
      simp [List.filter_cons, h']
    rw [hf, List.getLast?_concat, if_pos h]
  · have h' : ¬l[n]? = some '\n' := by rw [← List.get?_eq_getElem?]; exact h
    have hf : List.filter (fun i => l.get? i == some '\n') [n] = [] := by
      simp [List.filter_cons, h']
    rw [hf, List.append_nil, if_neg h]

theorem pyRfindNL_eq (l : List Char) (start : Nat) :
    pyRfindNL l start
      = ((lastNLBefore l start).map (fun p => (p : Int))).getD (-1) := by
  induction start with
  | zero => rfl
  | succ n ih =>
    rw [pyRfindNL_succ, lastNLBefore_succ]
    by_cases h : l.get? n = some '\n'
    · rw [if_pos h, if_pos h]; rfl
    · rw [if_neg h, if_neg h]; exact ih

/-! ### Dispatch of a site onto its registry -/

/-- The category a call keyword dispatches to. -/
inductive RegKey where
  | fleet
  | ship
  | outfit
  | udiff
deriving DecidableEq, Repr

/-- The registry object a category designates. -/
def getReg (regs : Registries) : RegKey → Registry
  | .fleet => regs.fleetdata
  | .ship => regs.shipdata
  | .outfit => regs.outfitdata
  | .udiff => regs.udata

/-- The dispatch mapping of main.py lines 151-162, in source order. -/
def dispatchTable : List (List Char × RegKey) :=
  [(lPilotAdd, .fleet), (lAddOutfit, .outfit),
   (lPlayerAddShip, .ship), (lDiffApply, .udiff)]

theorem Registry.find_fst_iff (r : Registry) (n : List Char) :
    (r.find n).1 = true ↔ n ∈ r.names := by
  have hany : (r.entries.any (fun e => e.1 = n) = true) ↔ n ∈ r.names := by
    simp [List.any_eq_true, Registry.names, List.mem_map]
  unfold Registry.find
  by_cases h : r.entries.any (fun e => e.1 = n) = true
  · rw [if_pos h]
    simp [hany.mp h]
  · rw [if_neg h]
    simp only [Bool.false_eq_true, false_iff]
    exact fun hn => h (hany.mpr hn)

theorem siteStep_fleet (regs : Registries) (info : Info) (hf : info.func = lPilotAdd) :
    (siteStep regs info).2
      = if (regs.fleetdata.find info.content).1 then none
        else some (errorstring info) := by
  simp only [siteStep, hf,
    if_neg (by decide : ¬(lPilotAdd = lAddOutfit)),
    if_neg (by decide : ¬(lPilotAdd = lPlayerAddShip)),
    if_neg (by decide : ¬(lPilotAdd = lDiffApply)), if_pos (rfl : lPilotAdd = lPilotAdd)]
  cases hp : (regs.fleetdata.find info.content).1 <;> simp [hp]

theorem siteStep_outfit (regs : Registries) (info : Info) (hf : info.func = lAddOutfit) :
    (siteStep regs info).2
      = if (regs.outfitdata.find info.content).1 then none
        else some (errorstring info) := by
  simp only [siteStep, hf,
    if_neg (by decide : ¬(lAddOutfit = lPilotAdd)),
    if_neg (by decide : ¬(lAddOutfit = lPlayerAddShip)),
    if_neg (by decide : ¬(lAddOutfit = lDiffApply)), if_pos (rfl : lAddOutfit = lAddOutfit)]
  cases hp : (regs.outfitdata.find info.content).1 <;> simp [hp]

theorem siteStep_ship (regs : Registries) (info : Info) (hf : info.func = lPlayerAddShip) :
    (siteStep regs info).2
      = if (regs.shipdata.find info.content).1 then none
        else some (errorstring info) := by
  simp only [siteStep, hf,
    if_neg (by decide : ¬(lPlayerAddShip = lPilotAdd)),
    if_neg (by decide : ¬(lPlayerAddShip = lAddOutfit)),
    if_neg (by decide : ¬(lPlayerAddShip = lDiffApply)),
    if_pos (rfl : lPlayerAddShip = lPlayerAddShip)]
  cases hp : (regs.shipdata.find info.content).1 <;> simp [hp]

theorem siteStep_udiff (regs : Registries) (info : Info) (hf : info.func = lDiffApply) :
    (siteStep regs info).2
      = if (regs.udata.find info.content).1 then none
        else some (errorstring info) := by
  simp only [siteStep, hf,
    if_neg (by decide : ¬(lDiffApply = lPilotAdd)),
    if_neg (by decide : ¬(lDiffApply = lAddOutfit)),
    if_neg (by decide : ¬(lDiffApply = lPlayerAddShip)),
    if_pos (rfl : lDiffApply = lDiffApply)]
  cases hp : (regs.udata.find info.content).1 <;> simp [hp]

/-- The diagnostic a single site produces, written via the registry its
    keyword dispatches to. -/
theorem siteStep_key (regs : Registries) (info : Info) (key : RegKey)
    (hmem : (info.func, key) ∈ dispatchTable) :
    (siteStep regs info).2
      = if ((getReg regs key).find info.content).1 then none
        else some (errorstring info) := by
  simp only [dispatchTable, List.mem_cons, Prod.mk.injEq,
    List.not_mem_nil, or_false] at hmem
  rcases hmem with ⟨hf, hk⟩ | ⟨hf, hk⟩ | ⟨hf, hk⟩ | ⟨hf, hk⟩ <;> subst hk
  · exact siteStep_fleet regs info hf
  · exact siteStep_outfit regs info hf
  · exact siteStep_ship regs info hf
  · exact siteStep_udiff regs info hf

/-- The per-site behavior of the primary loop body: a resolvable argument
    makes find return true and appends nothing; an unresolvable one appends
    exactly the formatted error string. -/
theorem siteStep_spec (regs : Registries) (info : Info) (key : RegKey)
    (hmem : (info.func, key) ∈ dispatchTable) :
    (info.content ∈ (getReg regs key).names →
       ((getReg regs key).find info.content).1 = true ∧ (siteStep regs info).2 = none) ∧
    (info.content ∉ (getReg regs key).names →
       (siteStep regs info).2 = some (errorstring info)) := by
  constructor
  · intro hm
    have ht := (Registry.find_fst_iff (getReg regs key) info.content).mpr hm
    exact ⟨ht, by rw [siteStep_key regs info key hmem, if_pos ht]⟩
  · intro hm
    have ht : ((getReg regs key).find info.content).1 = false := by
      have := fun hh => hm ((Registry.find_fst_iff (getReg regs key) info.content).mp hh)
      exact Bool.not_eq_true _ ▸ Bool.eq_false_iff.mpr (fun he => this he)
    rw [siteStep_key regs info key hmem, ht]
    simp

/-- Every site the scanner yields dispatches (after dropping the trailing
    parenthesis of the keyword) to one of the four registries. -/
theorem scan_func_dispatches (l : List Char) :
    ∀ s ∈ scan l, ∃ key, (s.func.dropLast, key) ∈ dispatchTable := by
  intro s hs
  have hkw := (scan_sound l s hs).1
  simp only [keywords, List.mem_cons, List.not_mem_nil, or_false] at hkw
  rcases hkw with h | h | h | h
  · exact ⟨.fleet, by rw [h]; decide⟩
  · exact ⟨.ship, by rw [h]; decide⟩
  · exact ⟨.outfit, by rw [h]; decide⟩
  · exact ⟨.udiff, by rw [h]; decide⟩

/-! ### Primary loop lemmas -/

theorem processFile_ok (st : ScanState) (fname : String) (text : List Char) :
    processFile st fname (.ok text)
      = .ok { regs := (processText st.regs text).1,
              cache := st.cache ++ [(fname, text)],
              errors := (processText st.regs text).2,
              stderrOut := st.stderrOut ++ st.errors } := rfl

theorem primaryScan_ok_run (files : List (String × List Char)) :
    ∀ st : ScanState,
      primaryScan st (files.map (fun p => (p.1, FileOutcome.ok p.2)))
        = .ok { regs := runRegs st.regs (files.map (fun p => p.2)),
                cache := st.cache ++ files,
                errors := (lagFlow st.errors (runDiags st.regs (files.map (fun p => p.2)))).2,
                stderrOut :=
                  st.stderrOut ++ (lagFlow st.errors (runDiags st.regs (files.map (fun p => p.2)))).1 } := by
  induction files with
  | nil => intro st; simp [primaryScan, runRegs, runDiags, lagFlow]
  | cons f fs ih =>
    intro st
    obtain ⟨fn, ft⟩ := f
    simp only [List.map_cons, primaryScan, processFile_ok, ih]
    simp [runRegs, runDiags, lagFlow, List.append_assoc]

theorem primaryScan_io_skip (st : ScanState) (n : String) (msg : String)
    (rest : List (String × FileOutcome)) :
    primaryScan st ((n, .ioError msg) :: rest)
      = primaryScan { st with
                        errors := [],
                        stderrOut := st.stderrOut ++ st.errors ++ ["I/O error: " ++ msg] }
          rest := by
  rw [primaryScan]
  simp [processFile, flushErrors, List.append_assoc]

theorem primaryScan_other_abort (st : ScanState) (n : String) (msg : String)
    (rest : List (String × FileOutcome)) :
    primaryScan st ((n, .otherError msg) :: rest) = .error msg := rfl

/-! ### Secondary pass lemmas.  Usage counts only ever grow, so once
    set_unknown has hit a name its entries stay nonzero to the end. -/

/-- Pointwise ordering of entry lists: same names, usage counts may grow. -/
def entMono (a b : List (List Char × Nat)) : Prop :=
  List.Forall₂ (fun x y => x.1 = y.1 ∧ x.2 ≤ y.2) a b

theorem entMono_refl (a : List (List Char × Nat)) : entMono a a :=
  List.forall₂_same.mpr (fun _ _ => ⟨rfl, Nat.le_refl _⟩)

theorem entMono_trans {a b c : List (List Char × Nat)}
    (h1 : entMono a b) (h2 : entMono b c) : entMono a c := by
  induction h1 generalizing c with
  | nil => cases h2; exact List.Forall₂.nil
  | cons hxy _ ih =>
    cases h2 with
    | cons hyz htail =>
      exact List.Forall₂.cons ⟨hxy.1.trans hyz.1, hxy.2.trans hyz.2⟩ (ih htail)

theorem entMono_bump (a : List (List Char × Nat)) (n : List Char) :
    entMono a (a.map (fun e => if e.1 = n then (e.1, e.2 + 1) else e)) := by
  induction a with
  | nil => exact List.Forall₂.nil
  | cons x t ih =>
    refine List.Forall₂.cons ?_ ih
    by_cases h : x.1 = n <;> simp [h]

/-- Usage counts only ever grow through find. -/
theorem Registry.find_mono (r : Registry) (n : List Char) :
    entMono r.entries (r.find n).2.entries := by
  unfold Registry.find
  by_cases h : r.entries.any (fun e => e.1 = n) = true
  · rw [if_pos h]; exact entMono_bump r.entries n
  · rw [if_neg h]; exact entMono_refl r.entries

/-- Usage counts only ever grow through set_unknown. -/
theorem Registry.set_unknown_mono (r : Registry) (n : List Char) :
    entMono r.entries (r.set_unknown n).entries :=
  entMono_bump r.entries n

/-- Componentwise growth of the four registries. -/
def RegsMono (a b : Registries) : Prop :=
  entMono a.fleetdata.entries b.fleetdata.entries ∧
  entMono a.shipdata.entries b.shipdata.entries ∧
  entMono a.outfitdata.entries b.outfitdata.entries ∧
  entMono a.udata.entries b.udata.entries

theorem RegsMono.refl (a : Registries) : RegsMono a a :=
  ⟨entMono_refl _, entMono_refl _, entMono_refl _, entMono_refl _⟩

theorem RegsMono.trans {a b c : Registries} (h1 : RegsMono a b) (h2 : RegsMono b c) :
    RegsMono a c :=
  ⟨entMono_trans h1.1 h2.1, entMono_trans h1.2.1 h2.2.1,
   entMono_trans h1.2.2.1 h2.2.2.1, entMono_trans h1.2.2.2 h2.2.2.2⟩

theorem setUnknownCat_mono (regs : Registries) (cat : String) (name : List Char) :
    RegsMono regs (setUnknownCat regs cat name) := by
  unfold setUnknownCat
  split_ifs <;>
    exact ⟨by first | exact Registry.set_unknown_mono _ _ | exact entMono_refl _,
           by first | exact Registry.set_unknown_mono _ _ | exact entMono_refl _,
           by first | exact Registry.set_unknown_mono _ _ | exact entMono_refl _,
           by first | exact Registry.set_unknown_mono _ _ | exact entMono_refl _⟩

theorem applyMatches_mono (ms : List (List Char)) :
    ∀ (regs : Registries) (cat : String), RegsMono regs (applyMatches regs cat ms) := by
  induction ms with
  | nil => intro regs cat; exact RegsMono.refl regs
  | cons m rest ih =>
    intro regs cat
    exact RegsMono.trans (setUnknownCat_mono regs cat m) (ih (setUnknownCat regs cat m) cat)

theorem applyFile_mono (m : List (String × List (List Tok))) :
    ∀ (regs : Registries) (content : List Char), RegsMono regs (applyFile regs m content) := by
  induction m with
  | nil => intro regs _; exact RegsMono.refl regs
  | cons p rest ih =>
    intro regs content
    exact RegsMono.trans (applyMatches_mono (finditer p.2 content) regs p.1)
      (ih (applyMatches regs p.1 (finditer p.2 content)) content)

theorem cacheFold_mono (m : List (String × List (List Tok)))
    (cache : List (String × List Char)) :
    ∀ regs : Registries, RegsMono regs (cache.foldl (fun r p => applyFile r m p.2) regs) := by
  induction cache with
  | nil => intro regs; exact RegsMono.refl regs
  | cons p rest ih =>
    intro regs
    exact RegsMono.trans (applyFile_mono m regs p.2) (ih (applyFile regs m p.2))

/-- No entry of the registry holds the name with a zero usage count. -/
def noZero (r : Registry) (n : List Char) : Prop :=
  ∀ e ∈ r.entries, e.1 = n → e.2 ≠ 0

theorem entMono_noZero {n : List Char} :
    ∀ {a b : List (List Char × Nat)}, entMono a b →
      (∀ e ∈ a, e.1 = n → e.2 ≠ 0) → ∀ e ∈ b, e.1 = n → e.2 ≠ 0 := by
  intro a b h
  induction h with
  | nil => intro _ e he; exact absurd he (List.not_mem_nil e)
  | cons hxy _ ih =>
    intro hz e he hn
    rcases List.mem_cons.mp he with rfl | hmem
    · have hx := hz _ (List.mem_cons_self _ _) (hxy.1.trans hn)
      omega
    · exact ih (fun e' he' => hz e' (List.mem_cons_of_mem _ he')) e hmem hn

theorem Registry.set_unknown_noZero (r : Registry) (n : List Char) :
    noZero (r.set_unknown n) n := by
  intro e he hn
  unfold Registry.set_unknown at he
  obtain ⟨x, hx, hfx⟩ := List.mem_map.mp he
  by_cases h : x.1 = n
  · rw [if_pos h] at hfx
    rw [← hfx]
    exact Nat.succ_ne_zero _
  · rw [if_neg h] at hfx
    rw [← hfx] at hn
    exact absurd hn h

/-- The four category keys the secondary pass can hand to set_unknown. -/
def catKeys : List String := ["fleet", "unidiff", "ship", "outfit"]

theorem getCatReg_mono {a b : Registries} (h : RegsMono a b) (cat : String) :
    entMono (getCatReg a cat).entries (getCatReg b cat).entries := by
  unfold getCatReg
  split_ifs
  · exact h.1
  · exact h.2.2.2
  · exact h.2.1
  · exact h.2.2.1

theorem setUnknownCat_noZero (regs : Registries) (name : List Char) :
    ∀ cat ∈ catKeys, noZero (getCatReg (setUnknownCat regs cat name) cat) name := by
  intro cat hcat
  simp only [catKeys, List.mem_cons, List.not_mem_nil, or_false] at hcat
  rcases hcat with rfl | rfl | rfl | rfl <;>
    simp only [setUnknownCat, getCatReg, if_pos rfl,
      if_neg (by decide : ¬("unidiff" = "fleet")),
      if_neg (by decide : ¬("ship" = "fleet")),
      if_neg (by decide : ¬("ship" = "unidiff")),
      if_neg (by decide : ¬("outfit" = "fleet")),
      if_neg (by decide : ¬("outfit" = "unidiff")),
      if_neg (by decide : ¬("outfit" = "ship"))] <;>
    exact Registry.set_unknown_noZero _ name

theorem applyMatches_noZero (ms : List (List Char)) :
    ∀ (regs : Registries) (cat : String) (mt : List Char),
      cat ∈ catKeys → mt ∈ ms →
      noZero (getCatReg (applyMatches regs cat ms) cat) mt := by
  induction ms with
  | nil => intro _ _ _ _ h; exact absurd h (List.not_mem_nil _)
  | cons m rest ih =>
    intro regs cat mt hcat hmem
    rcases List.mem_cons.mp hmem with rfl | hmem'
    · have h0 : noZero (getCatReg (setUnknownCat regs cat mt) cat) mt :=
        setUnknownCat_noZero regs mt cat hcat
      have hmono := applyMatches_mono rest (setUnknownCat regs cat mt) cat
      exact entMono_noZero (getCatReg_mono hmono cat) h0
    · exact ih (setUnknownCat regs cat m) cat mt hcat hmem'

theorem applyFile_noZero (m : List (String × List (List Tok))) :
    ∀ (regs : Registries) (content : List Char) (cat : String)
      (alts : List (List Tok)) (mt : List Char),
      cat ∈ catKeys → (cat, alts) ∈ m → mt ∈ finditer alts content →
      noZero (getCatReg (applyFile regs m content) cat) mt := by
  induction m with
  | nil => intro _ _ _ _ _ _ h; exact absurd h (List.not_mem_nil _)
  | cons p rest ih =>
    intro regs content cat alts mt hcat hmem hmt
    rcases List.mem_cons.mp hmem with rfl | hmem'
    · have h0 : noZero (getCatReg (applyMatches regs cat (finditer alts content)) cat) mt :=
        applyMatches_noZero (finditer alts content) regs cat mt hcat hmt
      have hmono := applyFile_mono rest (applyMatches regs cat (finditer alts content)) content
      exact entMono_noZero (getCatReg_mono hmono cat) h0
    · exact ih (applyMatches regs p.1 (finditer p.2 content)) content cat alts mt hcat hmem' hmt

theorem cacheFold_noZero (m : List (String × List (List Tok)))
    (cache : List (String × List Char)) :
    ∀ (regs : Registries) (fname : String) (content : List Char) (cat : String)
      (alts : List (List Tok)) (mt : List Char),
      cat ∈ catKeys → (cat, alts) ∈ m → (fname, content) ∈ cache →
      mt ∈ finditer alts content →
      noZero (getCatReg (cache.foldl (fun r p => applyFile r m p.2) regs) cat) mt := by
  induction cache with
  | nil => intro _ _ _ _ _ _ _ _ h; exact absurd h (List.not_mem_nil _)
  | cons p rest ih =>
    intro regs fname content cat alts mt hcat hm hmem hmt
    rcases List.mem_cons.mp hmem with heq | hmem'
    · have hcon : p.2 = content := by rw [← heq]
      have h0 : noZero (getCatReg (applyFile regs m p.2) cat) mt := by
        rw [hcon]
        exact applyFile_noZero m regs content cat alts mt hcat hm hmt
      have hmono := cacheFold_mono m rest (applyFile regs m p.2)
      exact entMono_noZero (getCatReg_mono hmono cat) h0
    · exact ih (applyFile regs m p.2) fname content cat alts mt hcat hm hmem' hmt

theorem not_mem_get_unused_of_noZero {r : Registry} {n : List Char} (h : noZero r n) :
    n ∉ r.get_unused := by
  intro hmem
  unfold Registry.get_unused at hmem
  obtain ⟨e, he, hn⟩ := List.mem_map.mp hmem
  have hf := List.mem_filter.mp he
  exact h e hf.1 hn (by simpa using hf.2)

/-- unused_data, written as a filter over the tocheck pairs. -/
theorem unusedData_eq (regs : Registries) :
    unusedData regs
      = ([("fleet", regs.fleetdata.get_unused), ("unidiff", regs.udata.get_unused),
          ("ship", regs.shipdata.get_unused), ("outfit", regs.outfitdata.get_unused)].filter
            (fun q => q.2.length > 0)) := by
  simp only [unusedData, tocheck, List.foldl, List.filter]
  split_ifs <;> simp_all

theorem mcobj_key_mem {regs : Registries} {cat : String} {alts : List (List Tok)}
    (h : (cat, alts) ∈ mcobj regs) : cat ∈ catKeys := by
  unfold mcobj at h
  obtain ⟨p, hp, hpe⟩ := List.mem_map.mp h
  rw [unusedData_eq] at hp
  have hp' := List.mem_filter.mp hp
  have hcat : p.1 = cat := congrArg Prod.fst hpe
  have hmem4 := hp'.1
  simp only [List.mem_cons, List.not_mem_nil, or_false] at hmem4
  rcases hmem4 with h1 | h1 | h1 | h1 <;> rw [← hcat, h1] <;> simp [catKeys]

/-! ### Concrete inputs used by the claim theorems -/

def emptyRegs : Registries := ⟨⟨[]⟩, ⟨[]⟩, ⟨[]⟩, ⟨[]⟩⟩

def txtPilotX : List Char := "pilot.add(\"X\")".toList

def txtLine3 : List Char := "a\nb\npilot.add(\"X\")".toList

def txtEscape : List Char := "pilot.add(\"a\\\"b\")".toList

def txtEmptyArg : List Char := "pilot.add(\"\")".toList

def c1Regs : Registries := ⟨⟨[("Llama".toList, 0)]⟩, ⟨[]⟩, ⟨[]⟩, ⟨[]⟩⟩

def c1Files : List (String × FileOutcome) :=
  [("a.lua", .ok "pilot.add(\"Hawk\")".toList)]

def fleetL : Registries := ⟨⟨[(['L'], 0)]⟩, ⟨[]⟩, ⟨[]⟩, ⟨[]⟩⟩

def c6Regs : Registries := ⟨⟨[(['a', ' ', 'b'], 0)]⟩, ⟨[]⟩, ⟨[]⟩, ⟨[]⟩⟩

def c6Cache : List (String × List Char) := [("f.lua", "x a\tb y".toList)]

def c6wRegs : Registries := ⟨⟨[("Llama".toList, 0)]⟩, ⟨[]⟩, ⟨[]⟩, ⟨[]⟩⟩

def c6wCache : List (String × List Char) := [("g.lua", "see Llama here".toList)]

def c7Init : ScanState := ⟨emptyRegs, [], [], []⟩

def c7Files : List (String × FileOutcome) :=
  [("f1.lua", .ok ['x']), ("f2.lua", .ioError "denied"), ("f3.lua", .ok ['y'])]

/-! ### The claims -/

/-- C1: the claim says no diagnostic is silently dropped and that the final
    file's pending diagnostics are flushed after the primary loop.  The code
    never prints the pending errors list after the loop: with a single script
    file holding one unresolved reference, the diagnostic is computed yet the
    error channel stays empty at the end of the run. -/
theorem C1_final_file_diagnostics_dropped :
    resultErrors (dahDoctor c1Regs c1Files)
      = [errorstring ⟨1, 1, lPilotAdd, "Hawk".toList⟩] ∧
    resultStderr (dahDoctor c1Regs c1Files) = [] := by
  exact ⟨by decide, by decide⟩

/-- C2 counterexample: the diagnostic actually produced for an unresolved
    reference wraps the argument in two backticks and two apostrophes, not in
    the single straight quotes the claim states. -/
theorem C2_quoting_counterexample :
    (siteStep emptyRegs ⟨1, 1, lPilotAdd, ['X']⟩).2
        = some (errorstring ⟨1, 1, lPilotAdd, ['X']⟩) ∧
    errorstring ⟨1, 1, lPilotAdd, ['X']⟩ ≠ claimedErrorString ⟨1, 1, lPilotAdd, ['X']⟩ := by
  exact ⟨by decide, by decide⟩

/-- C2 amended: every diagnostic emitted for an unresolved reference has
    exactly the content, with the argument wrapped in a double backtick on
    the left and a double apostrophe on the right: Can not found element
    (two backticks)argument(two apostrophes) for function callKindLabel at
    line line offset column. -/
theorem C2_diagnostic_line_format :
    ∀ (regs : Registries) (info : Info) (key : RegKey),
      (info.func, key) ∈ dispatchTable →
      info.content ∉ (getReg regs key).names →
      (siteStep regs info).2
        = some ("Can not found element " ++ String.mk [btick, btick]
            ++ String.mk info.content ++ String.mk [apos, apos] ++ " for function "
            ++ String.mk info.func ++ " at line " ++ toString info.lineno
            ++ " offset " ++ toString info.offset) := by
  intro regs info key h1 h2
  rw [(siteStep_spec regs info key h1).2 h2]
  rfl

/-- C2 witness: the amended format at a concrete unresolved reference. -/
theorem C2_diagnostic_line_format_witness :
    (siteStep emptyRegs ⟨1, 1, lPilotAdd, ['X']⟩).2
      = some ("Can not found element " ++ String.mk [btick, btick] ++ "X"
          ++ String.mk [apos, apos] ++ " for function pilot.add at line 1 offset 1") := by
  rw [C2_diagnostic_line_format emptyRegs ⟨1, 1, lPilotAdd, ['X']⟩ RegKey.fleet
    (by decide) (by decide)]
  rfl

/-- C3: each reference site dispatches to one of the four registries; a site
    whose argument is known there makes find return true and yields no
    diagnostic, a site whose argument is unknown yields exactly one
    diagnostic carrying the site's call kind, line and offset. -/
theorem C3_reference_resolution :
    (∀ (l : List Char), ∀ s ∈ scan l, ∃ key, (s.func.dropLast, key) ∈ dispatchTable) ∧
    (∀ (regs : Registries) (info : Info) (key : RegKey),
        (info.func, key) ∈ dispatchTable →
        (info.content ∈ (getReg regs key).names →
           ((getReg regs key).find info.content).1 = true ∧ (siteStep regs info).2 = none) ∧
        (info.content ∉ (getReg regs key).names →
           (siteStep regs info).2 = some (errorstring info))) :=
  ⟨scan_func_dispatches, siteStep_spec⟩

/-- C3 witness: both branches at concrete registries and sites. -/
theorem C3_reference_resolution_witness :
    (∃ key, ((⟨0, kwPilotAdd, ['X']⟩ : Site).func.dropLast, key) ∈ dispatchTable) ∧
    (((getReg fleetL RegKey.fleet).find ['L']).1 = true ∧
       (siteStep fleetL ⟨1, 1, lPilotAdd, ['L']⟩).2 = none) ∧
    (siteStep fleetL ⟨1, 1, lPilotAdd, ['H']⟩).2
      = some (errorstring ⟨1, 1, lPilotAdd, ['H']⟩) :=
  ⟨C3_reference_resolution.1 txtPilotX ⟨0, kwPilotAdd, ['X']⟩ (by decide),
   (C3_reference_resolution.2 fleetL ⟨1, 1, lPilotAdd, ['L']⟩ RegKey.fleet
      (by decide)).1 (by decide),
   (C3_reference_resolution.2 fleetL ⟨1, 1, lPilotAdd, ['H']⟩ RegKey.fleet
      (by decide)).2 (by decide)⟩

/-- C4: every site the scanner yields is one of the four keywords followed by
    a double quote and a nonempty quote-free argument, the text after the
    argument (if any) starts with a double quote, and whenever a keyword
    followed by a quote and a non-quote character occurs in the text the scan
    is nonempty; a backslash gets no escape treatment, as the concrete text
    with an interior backslash-quote shows. -/
theorem C4_scanner_patterns :
    (∀ (l : List Char), ∀ s ∈ scan l, siteShape l s) ∧
    (∀ (l kw : List Char) (ch : Char) (i : Nat),
        kw ∈ keywords → ch ≠ dquote → (kw ++ [dquote, ch]) <+: l.drop i →
        scan l ≠ []) ∧
    scan txtEscape = [⟨0, kwPilotAdd, ['a', '\\']⟩] :=
  ⟨scan_sound,
   fun _ _ _ _ h1 h2 h3 => scan_ne_nil_of_occur h1 h2 h3,
   by decide⟩

/-- C4 witness: the shape facts at a concrete text and site. -/
theorem C4_scanner_patterns_witness :
    siteShape txtPilotX ⟨0, kwPilotAdd, ['X']⟩ ∧ scan txtPilotX ≠ [] :=
  ⟨C4_scanner_patterns.1 txtPilotX ⟨0, kwPilotAdd, ['X']⟩ (by decide),
   C4_scanner_patterns.2.1 txtPilotX kwPilotAdd 'X' 0 (by decide) (by decide) (by decide)⟩

/-- C5 counterexample: at a match starting at offset 0 with no preceding
    newline the code reports offset 1, not the distance 0 from the start of
    the text that the claim's formula gives. -/
theorem C5_offset_at_text_start_counterexample :
    (⟨0, kwPilotAdd, ['X']⟩ : Site) ∈ scan txtPilotX ∧
    (lineNumber txtPilotX 0).2 ≠ claimedOffset txtPilotX 0 := by
  exact ⟨by decide, by decide⟩

/-- C5 amended: the line is the count of newlines strictly before the offset
    plus one; the reported offset is the distance from the nearest preceding
    newline when one exists, and start + 1 (one-based) when none precedes;
    the pilot.add match of the claim's example text reports line 3. -/
theorem C5_line_and_offset :
    (∀ (l : List Char) (start : Nat),
        (lineNumber l start).1 = (l.take start).count '\n' + 1 ∧
        (lineNumber l start).2
          = (match lastNLBefore l start with
             | some p => (start : Int) - p
             | none => (start : Int) + 1)) ∧
    (scan txtLine3).map (fun s => (lineNumber txtLine3 s.start).1) = [3] := by
  constructor
  · intro l start
    refine ⟨rfl, ?_⟩
    show (start : Int) - pyRfindNL l start = _
    rw [pyRfindNL_eq]
    cases h : lastNLBefore l start
    · show (start : Int) - (-1) = (start : Int) + 1
      omega
    · rfl
  · decide

/-- C6 counterexample: the name with an internal space occurs in a cached
    text with a tab (a flexible-whitespace occurrence, as the claim allows),
    the secondary matcher does match it, but set_unknown receives the matched
    text rather than the name, so the name is still unused afterwards. -/
theorem C6_flexible_whitespace_counterexample :
    occursFlex ['a', ' ', 'b'] "x a\tb y".toList = true ∧
    ['a', ' ', 'b'] ∈ c6Regs.fleetdata.get_unused ∧
    ['a', ' ', 'b'] ∈ (getCatReg (secondaryScan c6Regs c6Cache) "fleet").get_unused := by
  exact ⟨by decide, by decide, by decide⟩

/-- C6 amended: every text the secondary pass matches is handed to
    set_unknown of the owning registry, so any matched text is absent from
    that registry's unused set after the pass; a name is suppressed exactly
    when it is itself one of the matched texts, which holds for exact literal
    occurrences but not for occurrences whose whitespace differs from the
    name's. -/
theorem C6_matched_text_suppressed :
    ∀ (regs : Registries) (cache : List (String × List Char)) (cat : String)
      (alts : List (List Tok)) (fname : String) (content mt : List Char),
      (cat, alts) ∈ mcobj regs → (fname, content) ∈ cache →
      mt ∈ finditer alts content →
      mt ∉ (getCatReg (secondaryScan regs cache) cat).get_unused := by
  intro regs cache cat alts fname content mt hm hc hmt
  exact not_mem_get_unused_of_noZero
    (cacheFold_noZero (mcobj regs) cache regs fname content cat alts mt
      (mcobj_key_mem hm) hm hc hmt)

/-- C6 witness: an exactly occurring unused name is matched and suppressed. -/
theorem C6_matched_text_suppressed_witness :
    "Llama".toList ∉ (getCatReg (secondaryScan c6wRegs c6wCache) "fleet").get_unused :=
  C6_matched_text_suppressed c6wRegs c6wCache "fleet" (buildAlts ["Llama".toList])
    "g.lua" "see Llama here".toList "Llama".toList (by decide) (by decide) (by decide)

/-- C7: a file whose read raises an I/O error is skipped after a warning on
    the error channel and the loop continues with the remaining files with
    registries and cache untouched; any other exception aborts the run at
    once; in the concrete three-file run with an unreadable middle file the
    first and third files are both processed. -/
theorem C7_error_policy :
    (∀ (st : ScanState) (n msg : String) (rest : List (String × FileOutcome)),
        primaryScan st ((n, .ioError msg) :: rest)
          = primaryScan { st with
                            errors := [],
                            stderrOut := st.stderrOut ++ st.errors
                              ++ ["I/O error: " ++ msg] }
              rest) ∧
    (∀ (st : ScanState) (n msg : String) (rest : List (String × FileOutcome)),
        primaryScan st ((n, .otherError msg) :: rest) = .error msg) ∧
    resultCache (primaryScan c7Init c7Files) = [("f1.lua", ['x']), ("f3.lua", ['y'])] ∧
    resultStderr (primaryScan c7Init c7Files) = ["I/O error: denied"] :=
  ⟨primaryScan_io_skip, primaryScan_other_abort, by decide, by decide⟩

/-- C8 counterexample: two equal names in the unused data each contribute an
    alternative; the pattern body is A-bar-A, not A, and the deduplicated
    list the source builds is never used for the pattern. -/
theorem C8_duplicates_counterexample :
    patternBody [['A'], ['A']] = ['A', '|', 'A'] ∧
    (buildAlts [['A'], ['A']]).length = 2 ∧
    buildAlts [['A'], ['A']] ≠ buildAlts [['A']] ∧
    uniqListOf [['A'], ['A']] = [['A']] := by
  exact ⟨by decide, by decide, by decide, by decide⟩

/-- C8 amended: a matcher is built exactly for the categories whose unused
    set is nonempty, as a single alternation over the unused names in order,
    each internal space becoming a flexible one-whitespace token, literal
    characters matching case-sensitively, and with duplicate names each
    contributing their own alternative. -/
theorem C8_secondary_matchers :
    (∀ regs : Registries,
        mcobj regs = (unusedData regs).map (fun p => (p.1, buildAlts p.2)) ∧
        unusedData regs
          = ([("fleet", regs.fleetdata.get_unused), ("unidiff", regs.udata.get_unused),
              ("ship", regs.shipdata.get_unused), ("outfit", regs.outfitdata.get_unused)].filter
                (fun q => q.2.length > 0))) ∧
    (∀ data : List (List Char), buildAlts data = data.map nameToTokens) ∧
    (∀ c x : Char, matchToks [Tok.lit c] [x] = if x = c then some ([x], []) else none) ∧
    (∀ x : Char, matchToks [Tok.ws] [x] = if x.isWhitespace then some ([x], []) else none) ∧
    nameToTokens ['a', ' ', 'b'] = [Tok.lit 'a', Tok.ws, Tok.lit 'b'] := by
  refine ⟨fun regs => ⟨rfl, unusedData_eq regs⟩, fun _ => rfl, ?_, ?_, by decide⟩
  · intro c x
    by_cases h : x = c <;> simp [matchToks, h]
  · intro x
    by_cases h : x.isWhitespace <;> simp [matchToks, h]

/-- C9: one-file-lag reporting: processing a readable file first flushes the
    pending diagnostics of the previous file to the error channel and leaves
    exactly the current file's diagnostics pending; over a whole run of
    readable files the error channel holds the diagnostics of every file but
    the last, in order, and the last file's diagnostics stay pending. -/
theorem C9_one_file_lag :
    (∀ (st : ScanState) (fname : String) (text : List Char),
        processFile st fname (.ok text)
          = .ok { regs := (processText st.regs text).1,
                  cache := st.cache ++ [(fname, text)],
                  errors := (processText st.regs text).2,
                  stderrOut := st.stderrOut ++ st.errors }) ∧
    (∀ (regs : Registries) (files : List (String × List Char)),
        primaryScan ⟨regs, [], [], []⟩ (files.map (fun p => (p.1, FileOutcome.ok p.2)))
          = .ok { regs := runRegs regs (files.map (fun p => p.2)),
                  cache := files,
                  errors := (lagFlow [] (runDiags regs (files.map (fun p => p.2)))).2,
                  stderrOut := (lagFlow [] (runDiags regs (files.map (fun p => p.2)))).1 }) := by
  refine ⟨processFile_ok, fun regs files => ?_⟩
  rw [primaryScan_ok_run]
  simp

/-- C10: every scanned site has a nonempty argument; a call with an empty
    quoted argument yields no match, and checking the text holding only such
    a call touches no registry and produces no diagnostic. -/
theorem C10_no_empty_argument :
    (∀ (l : List Char), ∀ s ∈ scan l, s.content ≠ []) ∧
    scan txtEmptyArg = [] ∧
    (∀ regs : Registries, processText regs txtEmptyArg = (regs, [])) := by
  refine ⟨fun l s hs => (scan_sound l s hs).2.1, by decide, fun regs => ?_⟩
  have h : scan txtEmptyArg = [] := by decide
  unfold processText
  rw [h]
  rfl

/-- C10 witness: the nonempty-argument fact at a concrete site of a scan. -/
theorem C10_no_empty_argument_witness :
    (⟨0, kwPilotAdd, ['X']⟩ : Site).content ≠ [] :=
  C10_no_empty_argument.1 txtPilotX ⟨0, kwPilotAdd, ['X']⟩ (by decide)

end InSanity
